import Mathlib

/-!
# SkillFit-AI scoring-and-validation engine: a shallow embedding

This file embeds, in Lean, the parts of the SkillFit-AI backend that the
specification's claims are about:

* the ATS safety normalizers `remove_tables_from_resume`, `normalize_bullets`
  and `fix_line_lengths` (`app/services/resume_rewriter_v2.py`);
* the response parser `ResumeRewriterV2._parse_response` and
  `JobMatcher._parse_response` (JSON extraction from LLM output);
* the post-parse validation step of `JobMatcher.match`;
* the deterministic ATS scorer `ATSAnalyzer` (`app/services/ats_analyzer.py`);
* the post-rescan validation and response assembly of the `rewrite_resume`
  endpoint (`app/api/resumes.py`).

Python strings are modelled as `List Char`; Python numbers as exact rationals
(the code's float arithmetic is exact at every value used in the theorems
below, and no claim hinges on binary floating-point rounding).  Python's
`round(x, 1)` (round half to even) is modelled exactly on rationals.
-/

set_option autoImplicit false

namespace SkillFit

/-- A Python string, modelled as its list of characters. -/
abbrev Str := List Char

/-- ASCII whitespace as recognised by Python's `str.strip`, `\s` and `split()`
(space, tab, newline, carriage return, vertical tab, form feed).  The
development only ever feeds ASCII text to these predicates. -/
def pyIsSpace (c : Char) : Bool :=
  c = ' ' || c = '\t' || c = '\n' || c = '\r' || c = '\x0b' || c = '\x0c'

/-- `not line.strip()`: the line is empty or consists of whitespace only. -/
def isBlank (l : Str) : Bool := l.all pyIsSpace

/-- `text.split('\n')`: split at every newline; always returns at least one
(possibly empty) part. -/
def splitOnNL : Str → List Str
  | [] => [[]]
  | c :: rest =>
    if c = '\n' then [] :: splitOnNL rest
    else
      match splitOnNL rest with
      | l :: ls => (c :: l) :: ls
      | [] => [[c]]

/-- `'\n'.join(lines)`. -/
def joinNL : List Str → Str
  | [] => []
  | [l] => l
  | l :: l' :: ls => l ++ '\n' :: joinNL (l' :: ls)

/-- `text.lower()`, restricted to ASCII case mapping (all inputs used in this
development are ASCII). -/
def pyLower (l : Str) : Str := l.map Char.toLower

/-- `s.strip()`: drop leading and trailing whitespace. -/
def pyStrip (l : Str) : Str :=
  ((l.dropWhile pyIsSpace).reverse.dropWhile pyIsSpace).reverse

/-- Fuel-driven worker for `splitOnSub`. -/
def splitOnSubFuel (needle : Str) : Nat → Str → List Str
  | _, [] => [[]]
  | 0, s => [s]
  | f + 1, c :: rest =>
    if needle ≠ [] ∧ needle.isPrefixOf (c :: rest) then
      [] :: splitOnSubFuel needle f ((c :: rest).drop needle.length)
    else
      match splitOnSubFuel needle f rest with
      | l :: ls => (c :: l) :: ls
      | [] => [[c]]

/-- `hay.split(needle)` for a non-empty `needle`: split at leftmost,
non-overlapping occurrences, exactly as Python's `str.split`. -/
def splitOnSub (needle hay : Str) : List Str :=
  splitOnSubFuel needle (hay.length + 1) hay

/-- `needle in hay` (Python substring containment). -/
def containsSub (needle hay : Str) : Bool :=
  if needle = [] then true else 2 ≤ (splitOnSub needle hay).length

/-- `hay.count(needle)`: number of non-overlapping occurrences. -/
def pyCount (needle hay : Str) : Nat :=
  if needle = [] then hay.length + 1 else (splitOnSub needle hay).length - 1

/-- Python's `round` to an integer: round half to even, exact on rationals. -/
def pyRoundHalfEven (x : ℚ) : ℤ :=
  if x - ⌊x⌋ < 1 / 2 then ⌊x⌋
  else if x - ⌊x⌋ > 1 / 2 then ⌊x⌋ + 1
  else if ⌊x⌋ % 2 = 0 then ⌊x⌋ else ⌊x⌋ + 1

/-- Python's `round(x, 1)`, exact on rationals. -/
def pyRound1 (x : ℚ) : ℚ := (pyRoundHalfEven (10 * x) : ℚ) / 10

/-! ## Basic lemmas about the string model -/

theorem splitOnNL_ne_nil (s : Str) : splitOnNL s ≠ [] := by
  induction s with
  | nil => simp [splitOnNL]
  | cons c rest ih =>
    simp only [splitOnNL]
    split
    · simp
    · cases h : splitOnNL rest with
      | nil => simp
      | cons l ls => simp

theorem not_mem_nl_of_mem_splitOnNL (s : Str) (l : Str) (h : l ∈ splitOnNL s) :
    '\n' ∉ l := by
  induction s generalizing l with
  | nil =>
    simp only [splitOnNL, List.mem_singleton] at h
    subst h; simp
  | cons c rest ih =>
    simp only [splitOnNL] at h
    split at h
    · rcases List.mem_cons.mp h with h1 | h2
      · subst h1; simp
      · exact ih l h2
    · rename_i hc
      cases hsp : splitOnNL rest with
      | nil => exact absurd hsp (splitOnNL_ne_nil rest)
      | cons l0 ls =>
        rw [hsp] at h
        rcases List.mem_cons.mp h with h1 | h2
        · subst h1
          intro hm
          rcases List.mem_cons.mp hm with h3 | h4
          · exact hc h3.symm
          · exact ih l0 (by rw [hsp]; exact List.mem_cons_self _ _) h4
        · exact ih l (by rw [hsp]; exact List.mem_cons_of_mem _ h2)

theorem splitOnNL_of_not_mem (l : Str) (h : '\n' ∉ l) : splitOnNL l = [l] := by
  induction l with
  | nil => simp [splitOnNL]
  | cons c rest ih =>
    have hc : c ≠ '\n' := fun hcc => h (by simp [hcc])
    have hr : '\n' ∉ rest := fun hm => h (List.mem_cons_of_mem _ hm)
    simp [splitOnNL, hc, ih hr]

theorem splitOnNL_append_cons (l t : Str) (h : '\n' ∉ l) :
    splitOnNL (l ++ '\n' :: t) = l :: splitOnNL t := by
  induction l with
  | nil => simp [splitOnNL]
  | cons c rest ih =>
    have hc : c ≠ '\n' := fun hcc => h (by simp [hcc])
    have hr : '\n' ∉ rest := fun hm => h (List.mem_cons_of_mem _ hm)
    simp only [List.cons_append, splitOnNL, hc, if_false, List.append_eq, ih hr]

theorem splitOnNL_joinNL (ls : List Str) (hne : ls ≠ [])
    (h : ∀ l ∈ ls, '\n' ∉ l) : splitOnNL (joinNL ls) = ls := by
  induction ls with
  | nil => exact absurd rfl hne
  | cons l rest ih =>
    cases rest with
    | nil =>
      simp only [joinNL]
      exact splitOnNL_of_not_mem l (h l (List.mem_cons_self _ _))
    | cons l' rest' =>
      simp only [joinNL]
      rw [splitOnNL_append_cons l _ (h l (List.mem_cons_self _ _))]
      congr 1
      exact ih (by simp) (fun x hx => h x (List.mem_cons_of_mem _ hx))

theorem mem_of_mem_joinNL (ls : List Str) (c : Char) (h : c ∈ joinNL ls) :
    c = '\n' ∨ ∃ l ∈ ls, c ∈ l := by
  induction ls with
  | nil => simp [joinNL] at h
  | cons l rest ih =>
    cases rest with
    | nil =>
      simp only [joinNL] at h
      exact Or.inr ⟨l, List.mem_cons_self _ _, h⟩
    | cons l' rest' =>
      simp only [joinNL, List.mem_append, List.mem_cons] at h
      rcases h with h1 | h2 | h3
      · exact Or.inr ⟨l, List.mem_cons_self _ _, h1⟩
      · exact Or.inl h2
      · rcases ih h3 with h4 | ⟨x, hx, hcx⟩
        · exact Or.inl h4
        · exact Or.inr ⟨x, List.mem_cons_of_mem _ hx, hcx⟩

theorem map_eq_self_of_all {l : Str} {f : Char → Char}
    (h : ∀ c ∈ l, f c = c) : l.map f = l := by
  induction l with
  | nil => rfl
  | cons c rest ih =>
    simp only [List.map_cons, h c (List.mem_cons_self _ _),
      ih (fun x hx => h x (List.mem_cons_of_mem _ hx))]

theorem mem_of_mem_takeWhile {p : Char → Bool} {l : Str} {c : Char}
    (h : c ∈ l.takeWhile p) : c ∈ l := by
  induction l with
  | nil => simp [List.takeWhile] at h
  | cons x rest ih =>
    simp only [List.takeWhile] at h
    split at h
    · rcases List.mem_cons.mp h with h1 | h2
      · simp [h1]
      · exact List.mem_cons_of_mem _ (ih h2)
    · simp at h

theorem mem_of_mem_dropWhile {p : Char → Bool} {l : Str} {c : Char}
    (h : c ∈ l.dropWhile p) : c ∈ l := by
  induction l with
  | nil => simp [List.dropWhile] at h
  | cons x rest ih =>
    simp only [List.dropWhile] at h
    split at h
    · exact List.mem_cons_of_mem _ (ih h)
    · exact h

theorem mem_of_mem_drop {l : Str} {n : Nat} {c : Char} (h : c ∈ l.drop n) :
    c ∈ l := List.IsSuffix.mem h (List.drop_suffix n l)

theorem all_takeWhile (p : Char → Bool) (l : Str) :
    ∀ c ∈ l.takeWhile p, p c := by
  induction l with
  | nil => simp [List.takeWhile]
  | cons x rest ih =>
    simp only [List.takeWhile]
    split
    · intro c hc
      rcases List.mem_cons.mp hc with h1 | h2
      · subst h1; assumption
      · exact ih c h2
    · simp

theorem takeWhile_append_of_all (p : Char → Bool) (xs ys : Str)
    (h : ∀ x ∈ xs, p x) : (xs ++ ys).takeWhile p = xs ++ ys.takeWhile p := by
  induction xs with
  | nil => simp
  | cons x rest ih =>
    have hx := h x (List.mem_cons_self _ _)
    simp [List.takeWhile, hx, ih (fun y hy => h y (List.mem_cons_of_mem _ hy))]

theorem dropWhile_append_of_all (p : Char → Bool) (xs ys : Str)
    (h : ∀ x ∈ xs, p x) : (xs ++ ys).dropWhile p = ys.dropWhile p := by
  induction xs with
  | nil => rfl
  | cons x rest ih =>
    simp only [List.cons_append, List.dropWhile, h x (List.mem_cons_self _ _)]
    exact ih (fun y hy => h y (List.mem_cons_of_mem _ hy))

/-! ## The ATS safety normalizers (`resume_rewriter_v2.py`, lines 14-171)

`remove_tables_from_resume`, `normalize_bullets` and `fix_line_lengths` are
pure line-oriented text transforms; they are embedded here over `Str`.
-/

/-- The characters `'|+-='` counted by the table-density test. -/
def isTableChar (c : Char) : Bool := c = '|' || c = '+' || c = '-' || c = '='

/-- The per-line keep/drop decision of `remove_tables_from_resume`
(lines 32-56): blank lines are kept; then a line is dropped when its
table-character density exceeds 0.4 (`5 * tc > 2 * max len 1` exactly), when
it matches `^[\s|+\-=]{4,}$`, or when it contains three or more `'|'`. -/
def keepLine (l : Str) : Bool :=
  if isBlank l then true
  else if 5 * l.countP isTableChar > 2 * max l.length 1 then false
  else if 4 ≤ l.length ∧ l.all (fun c => pyIsSpace c || isTableChar c) then false
  else if 3 ≤ l.count '|' then false
  else true

/-- `remove_tables_from_resume` (the TableStrip transform). -/
def removeTables (text : Str) : Str :=
  joinNL ((splitOnNL text).filter keepLine)

/-- The eleven non-standard bullet glyphs mapped to `'•'` by
`normalize_bullets` (lines 81-93). -/
def isSpecialBullet (c : Char) : Bool :=
  c = '●' || c = '▪' || c = '◆' || c = '★' || c = '☆' || c = '→' ||
  c = '►' || c = '◦' || c = '‣' || c = '⁃' || c = '▸'

/-- The glyph substitution phase of `normalize_bullets`: each one-character
`str.replace` is a character map, and the eleven replacements commute. -/
def replBullet (c : Char) : Char := if isSpecialBullet c then '•' else c

/-- The per-line rewrite of `normalize_bullets` (lines 103-110): the regex
`^(\s*)[-*]\s+(.+)$` with Python's greedy/backtracking semantics.  Writing
`s0` for the text after the dash/asterisk and `k` for the length of its
maximal whitespace prefix: no match when `k = 0`; content is `s0.drop k`
when further text follows; when the line ends in whitespace, `\s+`
backtracks one character so the content is that final whitespace character
(possible only when `k ≥ 2`). -/
def bulletFix (l : Str) : Str :=
  match l.dropWhile pyIsSpace with
  | [] => l
  | d :: s0 =>
    if d = '-' || d = '*' then
      if (s0.takeWhile pyIsSpace).length = 0 then l
      else if (s0.takeWhile pyIsSpace).length < s0.length then
        l.takeWhile pyIsSpace ++ '•' :: ' ' ::
          s0.drop (s0.takeWhile pyIsSpace).length
      else if 2 ≤ (s0.takeWhile pyIsSpace).length then
        l.takeWhile pyIsSpace ++ '•' :: ' ' ::
          s0.drop ((s0.takeWhile pyIsSpace).length - 1)
      else l
    else l

/-- `normalize_bullets` (the BulletNormalizer transform). -/
def normalizeBullets (text : Str) : Str :=
  joinNL ((splitOnNL (text.map replBullet)).map bulletFix)

/-- `line.strip()` used as a truth value: the line has a non-space char. -/
def hasContent (l : Str) : Bool := l.any (fun c => !pyIsSpace c)

/-- Maximal runs of characters satisfying `p` (fuel-driven). -/
def runsOfFuel (p : Char → Bool) : Nat → Str → List Str
  | 0, _ => []
  | _, [] => []
  | f + 1, c :: rest =>
    if p c then (c :: rest.takeWhile p) :: runsOfFuel p f (rest.dropWhile p)
    else runsOfFuel p f rest

/-- Maximal runs of characters satisfying `p`. -/
def runsOf (p : Char → Bool) (s : Str) : List Str :=
  runsOfFuel p (s.length + 1) s

/-- `content.split()`: whitespace-separated words, empties discarded. -/
def pySplitWs (l : Str) : List Str := runsOf (fun c => !pyIsSpace c) l

/-- The word-wrap loop of `fix_line_lengths` (lines 154-169): `current`
starts as the bullet indent (or empty); each word is appended with a
separating space when `current.strip()` is non-empty; on overflow the
current line is emitted (if it has content) and the word starts a fresh
line prefixed by `contInd`. -/
def wrapWords (maxLen : Nat) (contInd : Str) : List Str → Str → List Str
  | [], current => if hasContent current then [current] else []
  | w :: ws, current =>
    let test := current ++ (if hasContent current then [' '] else []) ++ w
    if test.length ≤ maxLen then wrapWords maxLen contInd ws test
    else
      (if hasContent current then [current] else []) ++
        wrapWords maxLen contInd ws (contInd ++ w)

/-- Per-line body of `fix_line_lengths` (lines 132-169): short lines pass
through; an overlong line is word-wrapped, with `^(\s*•\s*)` giving bullet
lines a matching-width continuation indent and other lines a continuation
indent of their leading whitespace plus two spaces. -/
def fixLine (maxLen : Nat) (l : Str) : List Str :=
  if l.length ≤ maxLen then [l]
  else
    match l.dropWhile pyIsSpace with
    | '•' :: rest =>
      let ind := l.takeWhile pyIsSpace ++ '•' :: rest.takeWhile pyIsSpace
      let content := rest.dropWhile pyIsSpace
      wrapWords maxLen (List.replicate ind.length ' ') (pySplitWs content) ind
    | _ =>
      wrapWords maxLen (l.takeWhile pyIsSpace ++ [' ', ' ']) (pySplitWs l) []

/-- `fix_line_lengths` (the LineWrapper transform); the default maximum is
100. -/
def fixLineLengths (maxLen : Nat) (text : Str) : Str :=
  joinNL (((splitOnNL text).map (fixLine maxLen)).flatten)

/-! ### Structural lemmas about the normalizers -/

theorem mem_of_mem_splitOnNL (s l : Str) (c : Char) (hl : l ∈ splitOnNL s)
    (hc : c ∈ l) : c ∈ s := by
  induction s generalizing l with
  | nil =>
    simp only [splitOnNL, List.mem_singleton] at hl
    subst hl; simp at hc
  | cons x rest ih =>
    simp only [splitOnNL] at hl
    split at hl
    · rcases List.mem_cons.mp hl with h1 | h2
      · subst h1; simp at hc
      · exact List.mem_cons_of_mem _ (ih l h2 hc)
    · cases hsp : splitOnNL rest with
      | nil => exact absurd hsp (splitOnNL_ne_nil rest)
      | cons l0 ls =>
        rw [hsp] at hl
        rcases List.mem_cons.mp hl with h1 | h2
        · subst h1
          rcases List.mem_cons.mp hc with h3 | h4
          · simp [h3]
          · exact List.mem_cons_of_mem _
              (ih l0 (by rw [hsp]; exact List.mem_cons_self _ _) h4)
        · exact List.mem_cons_of_mem _
            (ih l (by rw [hsp]; exact List.mem_cons_of_mem _ h2) hc)

theorem map_self_idem {α : Type} (f : α → α) (l : List α)
    (h : ∀ a, f (f a) = f a) : (l.map f).map f = l.map f := by
  induction l with
  | nil => rfl
  | cons a as ih => simp [h a, ih]

/-- Case analysis on `bulletFix`: either the line is returned unchanged, or
the result is the leading whitespace followed by `'•'`, a space, and some
content. -/
theorem bulletFix_out (l : Str) :
    bulletFix l = l ∨
    ∃ c, bulletFix l = l.takeWhile pyIsSpace ++ '•' :: ' ' :: c ∧
      (∀ x ∈ c, x ∈ l) := by
  unfold bulletFix
  cases hdw : l.dropWhile pyIsSpace with
  | nil => exact Or.inl rfl
  | cons d s0 =>
    have hs0 : ∀ x ∈ s0, x ∈ l := fun x hx =>
      mem_of_mem_dropWhile (p := pyIsSpace)
        (by rw [hdw]; exact List.mem_cons_of_mem _ hx)
    dsimp only
    split_ifs with h1 h2 h3 h4
    · exact Or.inl rfl
    · exact Or.inr ⟨_, rfl, fun x hx => hs0 x (mem_of_mem_drop hx)⟩
    · exact Or.inr ⟨_, rfl, fun x hx => hs0 x (mem_of_mem_drop hx)⟩
    · exact Or.inl rfl
    · exact Or.inl rfl

theorem bulletFix_bullet_head (ind c' : Str) (hind : ∀ x ∈ ind, pyIsSpace x) :
    bulletFix (ind ++ '•' :: c') = ind ++ '•' :: c' := by
  have hdw : (ind ++ '•' :: c').dropWhile pyIsSpace = '•' :: c' := by
    rw [dropWhile_append_of_all _ _ _ hind]
    simp [List.dropWhile, pyIsSpace]
  unfold bulletFix
  rw [hdw]
  dsimp only
  rw [if_neg (by decide)]

theorem bulletFix_idem (l : Str) : bulletFix (bulletFix l) = bulletFix l := by
  rcases bulletFix_out l with h | ⟨c, h, _⟩
  · rw [h, h]
  · rw [h]
    exact bulletFix_bullet_head _ _ (all_takeWhile pyIsSpace l)

theorem mem_bulletFix (l : Str) (c : Char) (h : c ∈ bulletFix l) :
    c ∈ l ∨ c = '•' ∨ c = ' ' := by
  rcases bulletFix_out l with heq | ⟨c', heq, hc'⟩
  · rw [heq] at h; exact Or.inl h
  · rw [heq] at h
    rcases List.mem_append.mp h with h1 | h2
    · exact Or.inl (mem_of_mem_takeWhile h1)
    · rcases List.mem_cons.mp h2 with h3 | h4
      · exact Or.inr (Or.inl h3)
      · rcases List.mem_cons.mp h4 with h5 | h6
        · exact Or.inr (Or.inr h5)
        · exact Or.inl (hc' c h6)

theorem not_nl_bulletFix (l : Str) (h : '\n' ∉ l) : '\n' ∉ bulletFix l := by
  intro hm
  rcases mem_bulletFix l _ hm with h1 | h2 | h3
  · exact h h1
  · simp at h2
  · simp at h3

theorem replBullet_not_special (c : Char) :
    isSpecialBullet (replBullet c) = false := by
  unfold replBullet
  split
  · decide
  · rename_i hns
    simpa using hns

/-- Every character of `normalizeBullets text` escapes the special-bullet
set, so the glyph substitution phase is the identity on its output. -/
theorem normalizeBullets_no_special (text : Str) (c : Char)
    (h : c ∈ normalizeBullets text) : isSpecialBullet c = false := by
  unfold normalizeBullets at h
  rcases mem_of_mem_joinNL _ _ h with h1 | ⟨l, hl, hcl⟩
  · subst h1; decide
  · rcases List.mem_map.mp hl with ⟨l0, hl0, hfix⟩
    subst hfix
    rcases mem_bulletFix l0 c hcl with h2 | h3 | h4
    · have : c ∈ text.map replBullet := mem_of_mem_splitOnNL _ _ _ hl0 h2
      rcases List.mem_map.mp this with ⟨c0, _, hc0⟩
      subst hc0
      exact replBullet_not_special c0
    · subst h3; decide
    · subst h4; decide

theorem removeTables_idem (x : Str) :
    removeTables (removeTables x) = removeTables x := by
  unfold removeTables
  cases h : (splitOnNL x).filter keepLine with
  | nil => rfl
  | cons l rest =>
    have hne : l :: rest ≠ [] := by simp
    have hsub : ∀ l' ∈ l :: rest, l' ∈ (splitOnNL x).filter keepLine := by
      intro l' hl'; rw [h]; exact hl'
    have hnl : ∀ l' ∈ l :: rest, '\n' ∉ l' := fun l' hl' =>
      not_mem_nl_of_mem_splitOnNL x l' (List.mem_of_mem_filter (hsub l' hl'))
    rw [splitOnNL_joinNL _ hne hnl]
    have hf : (l :: rest).filter keepLine = l :: rest :=
      List.filter_eq_self.mpr (fun a ha => List.of_mem_filter (hsub a ha))
    rw [hf]

theorem normalizeBullets_idem (x : Str) :
    normalizeBullets (normalizeBullets x) = normalizeBullets x := by
  have hmap : (normalizeBullets x).map replBullet = normalizeBullets x := by
    apply map_eq_self_of_all
    intro c hc
    have := normalizeBullets_no_special x c hc
    simp [replBullet, this]
  conv_lhs => rw [normalizeBullets, hmap]
  unfold normalizeBullets
  cases h : splitOnNL (x.map replBullet) with
  | nil => exact absurd h (splitOnNL_ne_nil _)
  | cons l rest =>
    have hne : (l :: rest).map bulletFix ≠ [] := by simp
    have hnl : ∀ l' ∈ (l :: rest).map bulletFix, '\n' ∉ l' := by
      intro l' hl'
      rcases List.mem_map.mp hl' with ⟨l0, hl0, hfix⟩
      subst hfix
      exact not_nl_bulletFix l0
        (not_mem_nl_of_mem_splitOnNL _ l0 (by rw [h]; exact hl0))
    rw [splitOnNL_joinNL _ hne hnl, map_self_idem _ _ bulletFix_idem]

/-! ## JSON values and `json.loads` (used by both `_parse_response` methods)

The generator replies with free text that the services defensively parse:
strip surrounding markdown code fences, then `json.loads`.  JSON values are
modelled by `JVal`; `pyJsonLoads` is a recursive-descent parser equivalent
to `json.loads` on the fragment exercised here (no exponent literals, no
`\uXXXX` escapes; error *messages* are simplified — only which inputs fail
matters to the claims, never the wording of the message). -/

/-- A parsed JSON value.  Python `dict`s are association lists whose keys
are deduplicated at parse time (later duplicates overwrite, keeping the
first position, as in CPython). -/
inductive JVal where
  | jnull
  | jbool (b : Bool)
  | jnum (q : ℚ)
  | jstr (s : Str)
  | jarr (xs : List JVal)
  | jobj (fs : List (Str × JVal))

/-- `d[k]` / `k in d` for the association-list model of a `dict`. -/
def dictGet (fs : List (Str × JVal)) (k : Str) : Option JVal :=
  ((fs.filter (fun p => decide (p.1 = k))).getLast?).map Prod.snd

/-- `d[k] = v`: overwrite in place if the key exists, else append. -/
def dictSet (fs : List (Str × JVal)) (k : Str) (v : JVal) :
    List (Str × JVal) :=
  if fs.any (fun p => decide (p.1 = k)) then
    fs.map (fun p => if p.1 = k then (k, v) else p)
  else fs ++ [(k, v)]

/-- JSON inter-token whitespace. -/
def jskip (s : Str) : Str :=
  s.dropWhile (fun c => c = ' ' || c = '\t' || c = '\n' || c = '\r')

/-- Left brace / right brace (written via `Char.ofNat` so the source is
free of literal brace characters). -/
def lbraceC : Char := Char.ofNat 123

def rbraceC : Char := Char.ofNat 125

/-- Accumulate a run of decimal digits: value, digit count, rest. -/
def parseDigitsAux : Str → Nat → Nat → Nat × Nat × Str
  | [], v, n => (v, n, [])
  | c :: rest, v, n =>
    if c.isDigit then parseDigitsAux rest (10 * v + (c.toNat - 48)) (n + 1)
    else (v, n, c :: rest)

/-- A JSON number (integer or decimal fraction; exponents unsupported,
they never occur in the texts considered). -/
def parseNum (s : Str) : Except Str (JVal × Str) :=
  let p := match s with
    | '-' :: r => (true, r)
    | _ => (false, s)
  match p.2 with
  | [] => Except.error "Expecting value".data
  | c :: _ =>
    if c.isDigit then
      let d := parseDigitsAux p.2 0 0
      match d.2.2 with
      | '.' :: r2 =>
        let d2 := parseDigitsAux r2 0 0
        if d2.2.1 = 0 then Except.error "Expecting value".data
        else
          let q : ℚ := (d.1 : ℚ) + (d2.1 : ℚ) / (10 ^ d2.2.1 : ℚ)
          Except.ok (JVal.jnum (if p.1 then -q else q), d2.2.2)
      | r1 => Except.ok (JVal.jnum (if p.1 then -(d.1 : ℚ) else (d.1 : ℚ)), r1)
    else Except.error "Expecting value".data

/-- The character produced by a JSON backslash escape. -/
def escChar (c : Char) : Option Char :=
  if c = '"' then some '"'
  else if c = '\\' then some '\\'
  else if c = '/' then some '/'
  else if c = 'n' then some '\n'
  else if c = 't' then some '\t'
  else if c = 'r' then some '\r'
  else if c = 'b' then some '\x08'
  else if c = 'f' then some '\x0c'
  else none

/-- A JSON string body (after the opening quote). -/
def parseStrLit : Str → Except Str (Str × Str)
  | [] => Except.error "Unterminated string".data
  | c :: rest =>
    if c = '"' then Except.ok ([], rest)
    else if c = '\\' then
      match rest with
      | [] => Except.error "Unterminated string".data
      | e :: rest2 =>
        match escChar e with
        | some ce => (parseStrLit rest2).map (fun pr => (ce :: pr.1, pr.2))
        | none => Except.error "Invalid escape".data
    else (parseStrLit rest).map (fun pr => (c :: pr.1, pr.2))

/-- The parser's continuation states: a value, the items of an array, or
the members of an object (the accumulated `dict` uses `dictSet`, so later
duplicate keys overwrite). -/
inductive PMode where
  | val
  | arrItems (acc : List JVal)
  | objItems (acc : List (Str × JVal))

/-- One fuel-indexed step of the recursive-descent parser. -/
def parseStep : Nat → PMode → Str → Except Str (JVal × Str)
  | 0, _, _ => Except.error "Expecting value".data
  | f + 1, PMode.val, s =>
    match jskip s with
    | [] => Except.error "Expecting value".data
    | c :: rest =>
      if c = 'n' then
        if "ull".data.isPrefixOf rest then Except.ok (JVal.jnull, rest.drop 3)
        else Except.error "Expecting value".data
      else if c = 't' then
        if "rue".data.isPrefixOf rest then
          Except.ok (JVal.jbool true, rest.drop 3)
        else Except.error "Expecting value".data
      else if c = 'f' then
        if "alse".data.isPrefixOf rest then
          Except.ok (JVal.jbool false, rest.drop 4)
        else Except.error "Expecting value".data
      else if c = '"' then
        (parseStrLit rest).map (fun pr => (JVal.jstr pr.1, pr.2))
      else if c = '-' || c.isDigit then parseNum (c :: rest)
      else if c = '[' then
        match jskip rest with
        | ']' :: r2 => Except.ok (JVal.jarr [], r2)
        | _ => parseStep f (PMode.arrItems []) rest
      else if c = lbraceC then
        match jskip rest with
        | c2 :: r2 =>
          if c2 = rbraceC then Except.ok (JVal.jobj [], r2)
          else parseStep f (PMode.objItems []) rest
        | [] => Except.error "Expecting property name".data
      else Except.error "Expecting value".data
  | f + 1, PMode.arrItems acc, s =>
    match parseStep f PMode.val s with
    | Except.error e => Except.error e
    | Except.ok (v, r) =>
      match jskip r with
      | ',' :: r2 => parseStep f (PMode.arrItems (acc ++ [v])) r2
      | ']' :: r2 => Except.ok (JVal.jarr (acc ++ [v]), r2)
      | _ => Except.error "Expecting delimiter".data
  | f + 1, PMode.objItems acc, s =>
    match jskip s with
    | '"' :: rest =>
      match parseStrLit rest with
      | Except.error e => Except.error e
      | Except.ok (k, r) =>
        match jskip r with
        | ':' :: r2 =>
          match parseStep f PMode.val r2 with
          | Except.error e => Except.error e
          | Except.ok (v, r3) =>
            match jskip r3 with
            | ',' :: r4 => parseStep f (PMode.objItems (dictSet acc k v)) r4
            | c4 :: r4 =>
              if c4 = rbraceC then Except.ok (JVal.jobj (dictSet acc k v), r4)
              else Except.error "Expecting delimiter".data
            | [] => Except.error "Expecting delimiter".data
        | _ => Except.error "Expecting colon".data
    | _ => Except.error "Expecting property name".data

/-- `json.loads`: parse one value and require only whitespace after it. -/
def pyJsonLoads (s : Str) : Except Str JVal :=
  match parseStep (2 * s.length + 16) PMode.val s with
  | Except.error e => Except.error e
  | Except.ok (v, r) => if jskip r = [] then Except.ok v else Except.error "Extra data".data

/-! ## The two `_parse_response` methods -/

def fence3 : Str := "```".data

def fenceJson : Str := "```json".data

/-- The markdown code-fence stripping shared by both parsers
(`resume_rewriter_v2.py` lines 931-935, `job_matcher.py` lines 369-373):
`content.split("```json")[1].split("```")[0]`, or the same with
`"```"` when only a plain fence is present. -/
def fenceStrip (content : Str) : Str :=
  if containsSub fenceJson content then
    (splitOnSub fence3 ((splitOnSub fenceJson content).getD 1 [])).headD []
  else if containsSub fence3 content then
    (splitOnSub fence3 ((splitOnSub fence3 content).getD 1 [])).headD []
  else content

def improvedKey : Str := "improved_resume".data

def parseErrKey : Str := "parse_error".data

def rawRespKey : Str := "raw_response".data

def fmtErrStr : Str := "ERROR: LLM returned invalid format. Please try again.".data

def dictParseErr : Str := "improved_resume should be string, got dict".data

def missingResumeMsg : Str :=
  "ERROR: Resume text not found in response. Please try again.".data

def missingFieldErr : Str := "missing improved_resume field".data

def invalidTypeErr : Str := "invalid type: non-string".data

/-- The `TypeError` escaping `ResumeRewriterV2._parse_response` when the
decoded JSON value is not a `dict`: `"improved_resume" in data` on an
`int`/`float`/`bool`/`None` raises immediately, and on a `str` or `list`
the subsequent indexing/assignment raises.  Only the fact that an
exception propagates matters; the message is a stand-in. -/
def typeErrorMsg : Str :=
  "TypeError: decoded JSON value is not a dict".data

/-- `str()` of a decoded JSON value, as used by
`str(data["improved_resume"])`.  Exact only for scalars; containers are
abbreviated (no claim depends on the rendering, only on it being a
string). -/
def pyStrOf : JVal → Str
  | JVal.jnull => "None".data
  | JVal.jbool true => "True".data
  | JVal.jbool false => "False".data
  | JVal.jnum q =>
    if q.den = 1 then
      (if q.num < 0 then '-' :: Nat.toDigits 10 q.num.natAbs
       else Nat.toDigits 10 q.num.natAbs)
    else "<float>".data
  | JVal.jstr s => s
  | JVal.jarr _ => "<list>".data
  | JVal.jobj _ => "<dict>".data

/-- `ResumeRewriterV2._parse_response` (lines 920-963).  `Except.error`
models an uncaught Python exception: only `json.JSONDecodeError` is
handled, so a response decoding to a non-`dict` JSON value raises
`TypeError` out of the method. -/
def rewriterParseResponse (content : Str) : Except Str (List (Str × JVal)) :=
  let c := fenceStrip content
  match pyJsonLoads (pyStrip c) with
  | Except.error e =>
    Except.ok [(improvedKey, JVal.jstr c), (parseErrKey, JVal.jstr e)]
  | Except.ok (JVal.jobj fs) =>
    match dictGet fs improvedKey with
    | some (JVal.jobj _) =>
      Except.ok [(improvedKey, JVal.jstr fmtErrStr),
                 (parseErrKey, JVal.jstr dictParseErr)]
    | some (JVal.jstr _) => Except.ok fs
    | some v =>
      Except.ok [(improvedKey, JVal.jstr (pyStrOf v)),
                 (parseErrKey, JVal.jstr invalidTypeErr)]
    | none =>
      Except.ok (dictSet (dictSet fs improvedKey (JVal.jstr missingResumeMsg))
        parseErrKey (JVal.jstr missingFieldErr))
  | Except.ok _ => Except.error typeErrorMsg

/-- `JobMatcher._parse_response` (lines 358-381): returns the decoded value
unchanged on success (whatever its shape), and a tagged
`{"raw_response": ..., "parse_error": ...}` dict on decode failure; it
cannot raise. -/
def matcherParseResponse (content : Str) : JVal :=
  let c := fenceStrip content
  match pyJsonLoads (pyStrip c) with
  | Except.ok v => v
  | Except.error e =>
    JVal.jobj [(rawRespKey, JVal.jstr c), (parseErrKey, JVal.jstr e)]

/-! ## `JobMatcher.match`: post-parse score validation (lines 292-305)

After parsing the generator's JSON, `match` attaches ATS data and metadata
and then validates the score:

    if "match_score" in match_data:
        match_data["match_score"] = max(0, min(100, match_data["match_score"]))

The parsed match data is modelled by the fields the claims mention: the
overall score and the five per-category point values of `score_breakdown`
(each `Option`al, since the generator may omit them).  The ATS attachment
and `_metadata` fields do not interact with the scores and are omitted. -/

structure MatchData where
  match_score : Option ℚ
  skills_points : Option ℚ
  experience_points : Option ℚ
  keyword_points : Option ℚ
  achievements_points : Option ℚ
  education_points : Option ℚ
  deriving DecidableEq

/-- The defensive validation `JobMatcher.match` applies to the parsed data:
only the overall `match_score` is touched. -/
def validateMatchScore (m : MatchData) : MatchData :=
  { m with match_score := m.match_score.map (fun s => max 0 (min 100 s)) }

/-! ## The `rewrite_resume` endpoint (`resumes.py`, lines 435-557)

`rewrite_resume` calls `ResumeRewriterV2.rewrite_resume`, then runs the
post-rescan validation (re-invoking `JobMatcher.match` on the improved
text), and assembles the response dictionary.  The rewriter's parsed result
dict is modelled by the fields the endpoint reads. -/

/-- The fields of the rewriter's result dict read by the endpoint; `Option`
models a possibly missing key (`dict.get` with a default).
`skills_original`/`skills_projected` are
`match_score_changes.skills_match.{original_points, projected_points}`,
carried to show what happens (nothing) to a cap-violating proposal. -/
structure RewriteResult where
  improved_resume : Str
  /-- `final_scores.match_score.projected` -/
  fs_projected : Option ℚ
  /-- `final_scores.match_score.improvement` -/
  fs_improvement : Option ℚ
  /-- `final_scores.ats_score.original` -/
  ats_original : Option ℚ
  /-- `final_scores.ats_score.projected` -/
  ats_projected : Option ℚ
  /-- `final_scores.ats_score.improvement` -/
  ats_improvement : Option ℚ
  /-- v1 fallback key `projected_total_score` -/
  projected_total_score : Option ℚ
  /-- v1 fallback key `projected_improvement` -/
  projected_improvement : Option ℚ
  /-- `match_score_changes.skills_match.original_points` -/
  skills_original : Option ℚ
  /-- `match_score_changes.skills_match.projected_points` -/
  skills_projected : Option ℚ
  warnings : List Str
  blockers : List Str
  /-- v2 key `summary_of_changes` (`none` models a missing key) -/
  summary_of_changes : Option (List Str)
  /-- v1 fallback `changes_made`, already rendered to strings -/
  changes_made : List Str
  deriving DecidableEq

/-- The ATS-safety post-processing of `ResumeRewriterV2.rewrite_resume`
(lines 866-902): TableStrip, then BulletNormalizer, then LineWrapper with
the default maximum of 100, tracking which stages changed the text and
appending a post-processing note for each to `summary_of_changes` (creating
that list when absent).  Score fields are not touched. -/
def postNotes (t0 : Str) : List Str :=
  (if removeTables t0 ≠ t0 then
    ["Post-processing: Removed table formatting for ATS compatibility".data]
   else []) ++
  (if normalizeBullets (removeTables t0) ≠ removeTables t0 then
    ["Post-processing: Standardized all bullets to bullet glyph for ATS compatibility".data]
   else []) ++
  (if fixLineLengths 100 (normalizeBullets (removeTables t0)) ≠
      normalizeBullets (removeTables t0) then
    ["Post-processing: Wrapped lines exceeding 100 characters".data]
   else [])

def postProcessResult (r : RewriteResult) : RewriteResult :=
  if postNotes r.improved_resume = [] then r
  else
    { r with
      improved_resume :=
        fixLineLengths 100 (normalizeBullets (removeTables r.improved_resume))
      summary_of_changes :=
        some (r.summary_of_changes.getD [] ++ postNotes r.improved_resume) }

/-- The six message classes of `_generate_validation_message`
(`resumes.py` lines 34-57); the concrete f-strings only interpolate the
scores into these fixed templates. -/
inductive MsgClass where
  | estimateAccurate
  | mostlyAccurate
  | improvedLessSaturation
  | unchangedOptimized
  | optimisticPartialCredit
  | noMaterialGain
  deriving DecidableEq

/-- `_generate_validation_message`: selection by accuracy gap and the sign
of the actual improvement. -/
def genValidationMessage (gap actualImprovement : ℚ) : MsgClass :=
  if gap ≤ 3 then MsgClass.estimateAccurate
  else if gap ≤ 5 then MsgClass.mostlyAccurate
  else if gap ≤ 10 then
    if actualImprovement > 0 then MsgClass.improvedLessSaturation
    else MsgClass.unchangedOptimized
  else if actualImprovement > 0 then MsgClass.optimisticPartialCredit
  else MsgClass.noMaterialGain

def saturatedReason : Str :=
  "Skills already saturated - keywords present but not heavily weighted".data

def optimizedReason : Str :=
  "Resume already well-optimized for this role".data

/-- The `validation_data` dict built at `resumes.py` lines 481-496. -/
structure ValidationData where
  estimated_score : ℚ
  actual_score : ℚ
  estimated_improvement : ℚ
  actual_improvement : ℚ
  /-- `round(accuracy_gap, 1)` -/
  accuracy_gap : ℚ
  reliable : Bool
  ceiling_reached : Bool
  ceiling_reasons : List Str
  validation_message : MsgClass
  deriving DecidableEq

/-- Ceiling-reason collection (`resumes.py` lines 464-479): blockers, then
warnings; a synthesized default when both are empty. -/
def ceilingReasonsOf (actualImprovement : ℚ) (blockers warnings : List Str) :
    List Str :=
  let rs := blockers ++ warnings
  if rs = [] then
    [if actualImprovement > 0 then saturatedReason else optimizedReason]
  else rs

/-- The response dictionary assembled at `resumes.py` lines 532-557
(database ids and passthrough-only metadata omitted). -/
structure RewriteResponse where
  original_score : ℚ
  improved_resume : Str
  changes_summary : List Str
  estimated_new_score : ℚ
  score_improvement : ℚ
  key_improvements : List Str
  ats_score_original : Option ℚ
  ats_score_estimated : Option ℚ
  ats_score_improvement : Option ℚ
  warnings : List Str
  blockers : List Str
  ceiling_reached : Bool
  ceiling_reasons : List Str
  validation : Option ValidationData
  /-- `_raw_response`: the rewriter result passed through verbatim. -/
  raw_response : RewriteResult
  deriving DecidableEq

/-- The post-rescan validation and response assembly of `rewrite_resume`
(lines 435-557).  `rescan = none` models the rescan step raising (the
`except` at line 507 swallows the exception and leaves `validation_data`
as `None`); `rescan = some mo` models a successful
`JobMatcher.match` call whose returned dict has `match_score = mo`
(`rescan_result.get("match_score", match_score)` defaults a missing score
to the original `match_score`).  When the improved text is empty the
rescan is not attempted at all (line 442). -/
def buildResponse (matchScore : ℚ) (result : RewriteResult)
    (rescan : Option (Option ℚ)) : RewriteResponse :=
  let validation : Option ValidationData :=
    match rescan, result.improved_resume with
    | some mo, _ :: _ =>
      let actual := mo.getD matchScore
      let estimated := result.fs_projected.getD matchScore
      let gap := |estimated - actual|
      let ai := actual - matchScore
      some
        { estimated_score := estimated
          actual_score := actual
          estimated_improvement := estimated - matchScore
          actual_improvement := ai
          accuracy_gap := pyRound1 gap
          reliable := decide (gap ≤ 5)
          ceiling_reached := decide (ai ≤ 2)
          ceiling_reasons :=
            if ai ≤ 2 then ceilingReasonsOf ai result.blockers result.warnings
            else []
          validation_message := genValidationMessage gap ai }
    | _, _ => none
  let changesSummary := result.summary_of_changes.getD result.changes_made
  let baseScore :=
    result.fs_projected.getD (result.projected_total_score.getD matchScore)
  let baseImp :=
    result.fs_improvement.getD (result.projected_improvement.getD 0)
  { original_score := matchScore
    improved_resume := result.improved_resume
    changes_summary := changesSummary
    estimated_new_score :=
      match validation with
      | some v => v.actual_score
      | none => baseScore
    score_improvement :=
      match validation with
      | some v => v.actual_improvement
      | none => baseImp
    key_improvements := changesSummary.take 5
    ats_score_original := result.ats_original
    ats_score_estimated := result.ats_projected
    ats_score_improvement := result.ats_improvement
    warnings := result.warnings
    blockers := result.blockers
    ceiling_reached :=
      match validation with
      | some v => v.ceiling_reached
      | none => false
    ceiling_reasons :=
      match validation with
      | some v => if v.ceiling_reached then v.ceiling_reasons else []
      | none => []
    validation := validation
    raw_response := result }

/-! ## `ATSAnalyzer` (`ats_analyzer.py`)

The deterministic compatibility scorer.  The keyword extraction runs three
regex patterns over the raw text plus a word tokenization over the
lowercased text; each regex is embedded as an explicit scanner with the
leftmost, non-overlapping, greedy-with-backtracking semantics of Python's
`re.findall`. -/

/-- Python's `\w` restricted to ASCII: letters, digits, underscore. -/
def isWordChar (c : Char) : Bool := c.isAlphanum || c = '_'

def isUpperAZ (c : Char) : Bool := 'A' ≤ c && c ≤ 'Z'

def isLowerAZ (c : Char) : Bool := 'a' ≤ c && c ≤ 'z'

/-- A word boundary `\b` holds after a word character here. -/
def boundaryAt : Str → Bool
  | [] => true
  | c :: _ => !isWordChar c

/-- `[A-Z][a-z]+` at the head of the string (the `[a-z]+` run is maximal;
the regex engine never needs to backtrack into it, as shown case by case
in the scanners below). -/
def matchCapWord : Str → Option (Str × Str)
  | [] => none
  | c :: rest =>
    if isUpperAZ c then
      let ls := rest.takeWhile isLowerAZ
      if ls.isEmpty then none else some (c :: ls, rest.drop ls.length)
    else none

/-- `\s+` at the head of the string. -/
def matchWsPlus (s : Str) : Option (Str × Str) :=
  let ws := s.takeWhile pyIsSpace
  if ws.isEmpty then none else some (ws, s.drop ws.length)

/-- `[A-Z][a-z]+(?:\s+[A-Z][a-z]+){1,2}\b` at the head (the leading `\b`
is the caller's responsibility): greedily try two repetitions, fall back
to one when the trailing boundary fails. -/
def matchCapPhrase (s : Str) : Option (Str × Str) :=
  match matchCapWord s with
  | none => none
  | some (w1, r1) =>
    match matchWsPlus r1 with
    | none => none
    | some (ws2, r2) =>
      match matchCapWord r2 with
      | none => none
      | some (w2, r3) =>
        match matchWsPlus r3 with
        | some (ws3, r4) =>
          match matchCapWord r4 with
          | some (w3, r5) =>
            if boundaryAt r5 then some (w1 ++ ws2 ++ w2 ++ ws3 ++ w3, r5)
            else if boundaryAt r3 then some (w1 ++ ws2 ++ w2, r3)
            else none
          | none => if boundaryAt r3 then some (w1 ++ ws2 ++ w2, r3) else none
        | none => if boundaryAt r3 then some (w1 ++ ws2 ++ w2, r3) else none

/-- `re.findall(r'\b[A-Z][a-z]+(?:\s+[A-Z][a-z]+){1,2}\b', text)`:
leftmost non-overlapping scan; `prevW` records whether the previous
character was a word character (`\b` before `[A-Z]` requires it not be). -/
def scanCapFuel : Nat → Bool → Str → List Str
  | 0, _, _ => []
  | _, _, [] => []
  | f + 1, prevW, c :: rest =>
    if !prevW then
      match matchCapPhrase (c :: rest) with
      | some (m, r) => m :: scanCapFuel f true r
      | none => scanCapFuel f (isWordChar c) rest
    else scanCapFuel f (isWordChar c) rest

def scanCap (s : Str) : List Str := scanCapFuel (s.length + 1) false s

/-- `re.findall(r'\b\w+\.js\b', text)` (and the `.py` variant): a maximal
word run followed by a literal dot, the suffix, and a word boundary. -/
def scanDotFuel (suf : Str) : Nat → Bool → Str → List Str
  | 0, _, _ => []
  | _, _, [] => []
  | f + 1, prevW, c :: rest =>
    if !prevW && isWordChar c then
      let run := c :: rest.takeWhile isWordChar
      let after := rest.dropWhile isWordChar
      match after with
      | '.' :: a2 =>
        if suf.isPrefixOf a2 && boundaryAt (a2.drop suf.length) then
          (run ++ '.' :: suf) :: scanDotFuel suf f true (a2.drop suf.length)
        else scanDotFuel suf f true after
      | _ => scanDotFuel suf f true after
    else scanDotFuel suf f (isWordChar c) rest

def scanDot (suf : Str) (s : Str) : List Str :=
  scanDotFuel suf (s.length + 1) false s

/-- `re.findall(r'\b[A-Z]{2,}\b', text)`: exactly the maximal word runs
that consist of two or more uppercase letters (a partial uppercase run
inside a longer word run has no boundary on at least one side). -/
def acronymsOf (text : Str) : List Str :=
  (runsOf isWordChar text).filter (fun r => 2 ≤ r.length && r.all isUpperAZ)

/-- The `tech_patterns` phrase extraction of `_extract_keywords` (lines
159-168), matches lowercased afterwards, in source order: capitalized
phrases, `.js` names, `.py` names, acronyms. -/
def phrasesOf (text : Str) : List Str :=
  (scanCap text).map pyLower ++ (scanDot "js".data text).map pyLower ++
    (scanDot "py".data text).map pyLower ++ (acronymsOf text).map pyLower

/-- `ATSAnalyzer.STOP_WORDS`. -/
def stopWords : List Str :=
  ["a", "an", "and", "are", "as", "at", "be", "by", "for", "from",
   "has", "he", "in", "is", "it", "its", "of", "on", "that", "the",
   "to", "was", "will", "with", "have", "this", "we", "you", "your",
   "our", "their", "they", "can", "been", "had", "but", "not", "or"
  ].map String.data

/-- `re.findall(r'\b\w+\b', text_lower)` then the word filter of
`_extract_keywords` (lines 171-179): length at least `min_length = 3`,
not a stop word, not all digits. -/
def keywordWords (text : Str) : List Str :=
  (runsOf isWordChar (pyLower text)).filter
    (fun w => 3 ≤ w.length && !stopWords.contains w && !w.all Char.isDigit)

/-- `list(set(xs))`.  CPython's set iteration order is unspecified
(hash-randomized); first-occurrence order is taken as the canonical
enumeration.  Every fact proved about the keyword ranking below depends
only on the output being a duplicate-free enumeration of `xs`. -/
def pySetListAux (seen : List Str) : List Str → List Str
  | [] => []
  | a :: as =>
    if seen.contains a then pySetListAux seen as
    else a :: pySetListAux (a :: seen) as

def pySetList (xs : List Str) : List Str := pySetListAux [] xs

/-- Stable insertion into a list sorted by descending key: an element is
placed after all elements of greater *or equal* key, which preserves
first-insertion order among ties, matching the stability of CPython's
`sorted(..., reverse=True)` inside `Counter.most_common`. -/
def insertDescBy (key : Str → Nat) (a : Str) : List Str → List Str
  | [] => [a]
  | b :: bs => if key a ≤ key b then b :: insertDescBy key a bs else a :: b :: bs

def sortDescBy (key : Str → Nat) (xs : List Str) : List Str :=
  xs.foldl (fun acc a => insertDescBy key a acc) []

/-- The keys of `Counter(xs).most_common(n)`: distinct elements of `xs` in
first-occurrence order, stably sorted by descending multiplicity in `xs`,
truncated to `n`. -/
def counterMostCommon (xs : List Str) (n : Nat) : List Str :=
  (sortDescBy (fun k => xs.count k) (pySetList xs)).take n

/-- The list `all_keywords = list(set(phrases + keywords))` over which
`_extract_keywords` builds its `Counter` (line 182). -/
def allKeywordsList (text : Str) : List Str :=
  pySetList (phrasesOf text ++ keywordWords text)

/-- `ATSAnalyzer._extract_keywords` (lines 142-188): the keys of
`Counter(all_keywords).most_common(100)`. -/
def extractKeywords (text : Str) : List Str :=
  counterMostCommon (allKeywordsList text) 100

/-- The keyword-match statistics of `_analyze_keyword_matches` (lines
190-249).  The `matched_skills`/`missing_skills` fields produced by
`_extract_skills` are independent of every claim and omitted. -/
structure KeywordAnalysis where
  total_keywords : Nat
  matched_count : Nat
  /-- `round(match_percentage, 1)` -/
  match_percentage : ℚ
  matched_keywords : List Str
  missing_keywords : List Str
  deriving DecidableEq

/-- The `important_job_keywords` of `_analyze_keyword_matches` (lines
206-216): job keywords present in the lowercased target text, ranked by
`Counter(...).most_common(50)`. -/
def importantKeywordsOf (jobKeywords : List Str) (jobDescription : Str) :
    List Str :=
  counterMostCommon
    (jobKeywords.filter (fun w => 0 < pyCount w (pyLower jobDescription))) 50

/-- The `matched_keywords` of `_analyze_keyword_matches` (lines 218-222). -/
def matchedKeywordsOf (important : List Str) (resumeText : Str) : List Str :=
  important.filter (fun kw => containsSub kw (pyLower resumeText))

/-- `match_percentage` before rounding (line 232). -/
def rawPct (matched total : Nat) : ℚ :=
  if 0 < total then (matched : ℚ) / (total : ℚ) * 100 else 0

set_option linter.unusedVariables false in
/-- `ATSAnalyzer._analyze_keyword_matches`: the `resumeKeywords` argument
is received but (as in the source) never used by the computation. -/
def analyzeKeywordMatches (jobKeywords resumeKeywords : List Str)
    (resumeText jobDescription : Str) : KeywordAnalysis :=
  let important := importantKeywordsOf jobKeywords jobDescription
  let matched := matchedKeywordsOf important resumeText
  { total_keywords := important.length
    matched_count := matched.length
    match_percentage := pyRound1 (rawPct matched.length important.length)
    matched_keywords := matched.take 20
    missing_keywords :=
      ((important.take 30).filter
        (fun kw => !containsSub kw (pyLower resumeText))).take 20 }

/-- The `tables` pattern `\|.*\|` matches iff some line has two pipes
(`.` does not cross newlines). -/
def hasTableRow (text : Str) : Bool :=
  (splitOnNL text).any (fun l => 2 ≤ l.count '|')

/-- The `special_chars` class `[▪▫■□●○◆◇★☆]`. -/
def isAtsSpecialChar (c : Char) : Bool :=
  c = '▪' || c = '▫' || c = '■' || c = '□' || c = '●' ||
  c = '○' || c = '◆' || c = '◇' || c = '★' || c = '☆'

/-- `ATSAnalyzer._check_formatting` (lines 282-315): start from 100,
subtract fixed penalties, floor at 0.  The sequential `score -= p`
statements are written as one subtraction chain (the subtractions
commute); the issue strings do not feed any score and are omitted. -/
def checkFormatting (text : Str) : ℚ :=
  max ((100 : ℚ) - (if hasTableRow text then 20 else 0) -
    (if text.any isAtsSpecialChar then 10 else 0) -
    (if 20 < text.count '\t' then 10 else 0) -
    (if 5 < ((splitOnNL text).filter (fun l => 200 < l.length)).length then
      15 else 0)) 0

def expAliases : List Str :=
  ["experience", "work experience", "employment history",
   "professional experience"].map String.data

def eduAliases : List Str :=
  ["education", "academic background", "qualifications"].map String.data

def skillAliases : List Str :=
  ["skills", "technical skills", "core competencies", "expertise"
  ].map String.data

/-- How many of the three section groups of `_check_sections` (lines
317-348) have an alias occurring in the lowercased text. -/
def sectionsFoundCount (text : Str) : Nat :=
  (if expAliases.any (fun a => containsSub a (pyLower text)) then 1 else 0) +
    (if eduAliases.any (fun a => containsSub a (pyLower text)) then 1 else 0) +
    (if skillAliases.any (fun a => containsSub a (pyLower text)) then 1 else 0)

/-- `ATSAnalyzer._check_sections`: `found / 3 * 100`. -/
def checkSections (text : Str) : ℚ :=
  (sectionsFoundCount text : ℚ) / 3 * 100

/-- The email regex and the three phone regexes of `_check_contact_info`
(lines 350-372), kept abstract: they are pure `Str → Bool` tests whose
verdicts no claim depends on, so every theorem quantifies over all
implementations. -/
structure ContactRegex where
  hasEmail : Str → Bool
  hasPhone : Str → Bool

/-- `ATSAnalyzer._check_contact_info`: 50 points for an email match plus
50 for any phone match. -/
def checkContactInfo (P : ContactRegex) (text : Str) : ℚ :=
  (if P.hasEmail text then 50 else 0) + (if P.hasPhone text then 50 else 0)

/-- The result dict of `analyze_ats_score` (the `issues` and
`recommendations` lists, which never feed a score, are omitted). -/
structure ATSResult where
  ats_score : ℚ
  keyword_analysis : KeywordAnalysis
  formatting_score : ℚ
  section_score : ℚ
  contact_score : ℚ
  deriving DecidableEq

/-- `ATSAnalyzer.analyze_ats_score` (lines 43-136). -/
def analyzeAtsScore (P : ContactRegex) (resumeText jobDescription : Str) :
    ATSResult :=
  let jobKeywords := extractKeywords jobDescription
  let resumeKeywords := extractKeywords resumeText
  let ka := analyzeKeywordMatches jobKeywords resumeKeywords
    resumeText jobDescription
  let fmt := checkFormatting resumeText
  let sec := checkSections resumeText
  let con := checkContactInfo P resumeText
  let score := ka.match_percentage * (0.50 : ℚ) + fmt * (0.25 : ℚ) +
    sec * (0.15 : ℚ) + con * (0.10 : ℚ)
  { ats_score := pyRound1 score
    keyword_analysis := ka
    formatting_score := fmt
    section_score := sec
    contact_score := con }

/-! ## Helper lemmas for the claim theorems -/

theorem pyRoundHalfEven_nonneg (x : ℚ) (hx : 0 ≤ x) :
    0 ≤ pyRoundHalfEven x := by
  unfold pyRoundHalfEven
  have hf : 0 ≤ ⌊x⌋ := Int.floor_nonneg.mpr hx
  split_ifs <;> omega

theorem pyRoundHalfEven_le (x : ℚ) (n : ℤ) (hx : x ≤ n) :
    pyRoundHalfEven x ≤ n := by
  unfold pyRoundHalfEven
  have hf : ⌊x⌋ ≤ n := by
    calc ⌊x⌋ ≤ ⌊(n : ℚ)⌋ := Int.floor_le_floor hx
    _ = n := Int.floor_intCast n
  have hfx : (⌊x⌋ : ℚ) ≤ x := Int.floor_le x
  split_ifs with h1 h2 h3
  · exact hf
  · by_contra hc
    push_neg at hc
    have hfn : ⌊x⌋ = n := by omega
    rw [hfn] at h2
    have : (n : ℚ) < x := by linarith
    exact absurd hx (not_le.mpr this)
  · exact hf
  · by_contra hc
    push_neg at hc
    have hfn : ⌊x⌋ = n := by omega
    push_neg at h1
    rw [hfn] at h1
    have : (n : ℚ) < x := by linarith
    exact absurd hx (not_le.mpr this)

theorem pyRound1_nonneg (x : ℚ) (hx : 0 ≤ x) : 0 ≤ pyRound1 x := by
  unfold pyRound1
  have := pyRoundHalfEven_nonneg (10 * x) (by linarith)
  positivity

theorem pyRound1_le_100 (x : ℚ) (hx : x ≤ 100) : pyRound1 x ≤ 100 := by
  unfold pyRound1
  have h := pyRoundHalfEven_le (10 * x) 1000 (by push_cast; linarith)
  have h2 : ((pyRoundHalfEven (10 * x) : ℚ)) ≤ 1000 := by exact_mod_cast h
  linarith

theorem pySetListAux_not_seen (seen : List Str) (xs : List Str) :
    ∀ a ∈ pySetListAux seen xs, seen.contains a = false := by
  induction xs generalizing seen with
  | nil => simp [pySetListAux]
  | cons x rest ih =>
    intro a ha
    unfold pySetListAux at ha
    split at ha
    · exact ih seen a ha
    · rcases List.mem_cons.mp ha with h1 | h2
      · subst h1
        rename_i hns
        simpa using hns
      · have := ih (x :: seen) a h2
        simp only [List.contains_cons, Bool.or_eq_false_iff] at this
        exact this.2

theorem pySetList_nodup (xs : List Str) : (pySetList xs).Nodup := by
  unfold pySetList
  suffices h : ∀ seen : List Str, (pySetListAux seen xs).Nodup from h []
  induction xs with
  | nil => intro seen; simp [pySetListAux]
  | cons x rest ih =>
    intro seen
    unfold pySetListAux
    split
    · exact ih seen
    · refine List.nodup_cons.mpr ⟨?_, ih (x :: seen)⟩
      intro hmem
      have := pySetListAux_not_seen (x :: seen) rest x hmem
      simp at this

/-- The central fact behind C8: a `Counter` built over a deduplicated list
assigns multiplicity 1 to every element, whatever enumeration order the
set produced. -/
theorem count_le_one_of_nodup (xs : List Str) (k : Str) (h : xs.Nodup) :
    xs.count k ≤ 1 := by
  induction xs with
  | nil => simp
  | cons x rest ih =>
    rcases List.nodup_cons.mp h with ⟨hx, hr⟩
    by_cases hk : k = x
    · subst hk
      have h0 : rest.count k = 0 := List.count_eq_zero.mpr hx
      simp [List.count_cons, h0]
    · simp [List.count_cons, hk, ih hr]

theorem pySetList_count_le_one (xs : List Str) (k : Str) :
    (pySetList xs).count k ≤ 1 :=
  count_le_one_of_nodup _ k (pySetList_nodup xs)

theorem getLast?_replicate_succ {α : Type} (n : Nat) (a : α) :
    (List.replicate (n + 1) a).getLast? = some a := by
  induction n with
  | zero => rfl
  | succ m ih =>
    rw [List.replicate_succ]
    rw [List.getLast?_cons]
    simp only [List.replicate_succ] at ih ⊢
    rw [ih]
    cases m <;> simp [List.getLast?_cons]

theorem filter_map_keyset (fs : List (Str × JVal)) (k : Str) (v : JVal) :
    (fs.map (fun p => if p.1 = k then (k, v) else p)).filter
        (fun p => decide (p.1 = k)) =
      List.replicate (fs.countP (fun p => decide (p.1 = k))) (k, v) := by
  induction fs with
  | nil => rfl
  | cons p rest ih =>
    by_cases hp : p.1 = k
    · simp only [List.map_cons, hp, if_true, List.filter_cons,
        List.countP_cons]
      simp [ih, hp, List.replicate_succ]
    · simp only [List.map_cons, hp, if_false, List.filter_cons,
        List.countP_cons]
      simp [ih, hp]

theorem filter_map_ne (fs : List (Str × JVal)) (k k' : Str) (v : JVal)
    (h : k' ≠ k) :
    (fs.map (fun p => if p.1 = k then (k, v) else p)).filter
        (fun p => decide (p.1 = k')) =
      fs.filter (fun p => decide (p.1 = k')) := by
  induction fs with
  | nil => rfl
  | cons p rest ih =>
    by_cases hp : p.1 = k
    · have hp2 : ¬ p.1 = k' := fun hc => h (hc.symm.trans hp)
      have hkv : ¬ ((k, v).1 = k') := fun hc => h hc.symm
      simp only [List.map_cons, hp, if_true, List.filter_cons]
      simp [hp2, hkv, ih]
    · simp only [List.map_cons, hp, if_false, List.filter_cons]
      by_cases hp' : p.1 = k'
      · simp [hp', ih]
      · simp [hp', ih]

theorem dictGet_dictSet_self (fs : List (Str × JVal)) (k : Str) (v : JVal) :
    dictGet (dictSet fs k v) k = some v := by
  unfold dictGet dictSet
  split_ifs with hany
  · rw [filter_map_keyset]
    have hpos : 0 < fs.countP (fun p => decide (p.1 = k)) := by
      rcases List.any_eq_true.mp hany with ⟨p, hp, hdec⟩
      exact List.countP_pos_iff.mpr ⟨p, hp, hdec⟩
    obtain ⟨m, hm⟩ : ∃ m, fs.countP (fun p => decide (p.1 = k)) = m + 1 :=
      ⟨_, (Nat.succ_pred_eq_of_pos hpos).symm⟩
    rw [hm, getLast?_replicate_succ]
    rfl
  · rw [List.filter_append]
    have h1 : List.filter (fun p => decide (p.1 = k)) [(k, v)] = [(k, v)] := by
      simp
    rw [h1, List.getLast?_concat]
    rfl

theorem dictGet_dictSet_ne (fs : List (Str × JVal)) (k k' : Str) (v : JVal)
    (h : k' ≠ k) : dictGet (dictSet fs k v) k' = dictGet fs k' := by
  unfold dictGet dictSet
  split_ifs with hany
  · rw [filter_map_ne fs k k' v h]
  · rw [List.filter_append]
    have h1 : List.filter (fun p => decide (p.1 = k')) [(k, v)] = [] := by
      have hkv : ¬ ((k, v).1 = k') := fun hc => h hc.symm
      simp [hkv]
    rw [h1, List.append_nil]

/-! ## Claim C6: idempotence of the text-safety transforms -/

set_option maxRecDepth 100000 in
/-- C6 (counterexample).  The claim asserts that all three transforms are
idempotent.  LineWrapper (`fix_line_lengths`, default maximum 100) is not:
an unbreakable 150-character word exceeds the maximum, so each pass
prepends a fresh two-space continuation indent computed from the previous
pass's leading whitespace, and the second application differs from the
first (`"  " ++ word` becomes `"    " ++ word`). -/
theorem lineWrapper_not_idempotent :
    fixLineLengths 100 (fixLineLengths 100 (List.replicate 150 'a')) ≠
      fixLineLengths 100 (List.replicate 150 'a') := by
  decide

/-- C6 (amended).  TableStrip and BulletNormalizer are idempotent for every
input; LineWrapper is not idempotent in general, but the pipeline
TableStrip then BulletNormalizer then LineWrapper applied to text that
each transform leaves unchanged (already-clean text) returns it
unchanged. -/
theorem transforms_idempotent_amended :
    (∀ x : Str, removeTables (removeTables x) = removeTables x) ∧
    (∀ x : Str, normalizeBullets (normalizeBullets x) = normalizeBullets x) ∧
    (∀ x : Str, removeTables x = x → normalizeBullets x = x →
      fixLineLengths 100 x = x →
      fixLineLengths 100 (normalizeBullets (removeTables x)) = x) := by
  refine ⟨removeTables_idem, normalizeBullets_idem, ?_⟩
  intro x h1 h2 h3
  rw [h1, h2, h3]

/-- C6 (witness): the amended pipeline statement applied to a concrete
clean resume fragment. -/
theorem transforms_idempotent_amended_witness :
    fixLineLengths 100 (normalizeBullets (removeTables "SKILLS".data)) =
      "SKILLS".data :=
  transforms_idempotent_amended.2.2 ("SKILLS".data)
    (by decide) (by decide) (by decide)

/-! ## Claim C7: the exact TableStrip line characterization -/

/-- The drop/keep rule as the amended claim words it: a line that is empty
or whitespace-only is always kept; otherwise it is dropped exactly when
its {`|`,`+`,`-`,`=`}-to-length ratio exceeds 0.4, or it consists solely
of whitespace and table characters and is at least 4 characters long
(the regex `^[\s|+\-=]{4,}$`), or it contains 3 or more `'|'`. -/
def keepLineSpec (l : Str) : Bool :=
  if l.all pyIsSpace then true
  else
    !(decide (5 * l.countP isTableChar > 2 * l.length) ||
      (decide (4 ≤ l.length) && l.all (fun c => pyIsSpace c || isTableChar c)) ||
      decide (3 ≤ l.count '|'))

theorem keepLine_eq_spec (l : Str) : keepLine l = keepLineSpec l := by
  unfold keepLine keepLineSpec isBlank
  by_cases hb : l.all pyIsSpace
  · simp [hb]
  · have hlen : 1 ≤ l.length := by
      cases l with
      | nil => simp at hb
      | cons c rest => simp
    have hmax : max l.length 1 = l.length := Nat.max_eq_left hlen
    simp only [hb, if_false, hmax]
    by_cases h1 : 5 * l.countP isTableChar > 2 * l.length
    · simp [h1]
    · by_cases h2 : 4 ≤ l.length
      · by_cases h3 : (l.all fun c => pyIsSpace c || isTableChar c) = true
        · simp [h1, h2, h3]
        · by_cases h4 : 3 ≤ l.count '|'
          · simp [h1, h2, h3, h4]
          · simp [h1, h2, h3, h4]
      · by_cases h4 : 3 ≤ l.count '|'
        · simp [h1, h2, h4]
        · simp [h1, h2, h4]

/-- C7 (counterexample).  The claim's characterization is wrong on two
sides.  The line `" - "` consists entirely of whitespace and `'-'`, so the
claim's first drop condition says it is removed — yet TableStrip keeps it
(density 1/3 ≤ 0.4, shorter than the regex's 4-character minimum, no
pipes).  The line `" ==  "` has no pipes and table-character ratio exactly
0.4 ≤ 0.4, so the claim's preservation sentence says it is kept verbatim —
yet TableStrip drops it (it matches `^[\s|+\-=]{4,}$`). -/
theorem tableStrip_characterization_counterexample :
    (((" - ".data).all (fun c => pyIsSpace c || isTableChar c)) = true ∧
      removeTables (" - ".data) = " - ".data) ∧
    ((" ==  ".data).count '|' ≤ 2 ∧
      5 * ((" ==  ".data).countP isTableChar) ≤ 2 * (" ==  ".data).length ∧
      removeTables (" ==  ".data) = []) := by
  decide

/-- C7 (amended).  Per line: empty and whitespace-only lines are always
kept; every other line is dropped exactly when its table-character ratio
exceeds 0.4, or it consists solely of whitespace/`|`/`+`/`-`/`=` with
length at least 4, or contains 3 or more `'|'` characters.  In
particular the 9-cell pipe-delimited row is removed entirely while the
contact line `"Email: a@b.com | Phone: 555-1234"` is kept verbatim. -/
theorem tableStrip_amended :
    (∀ text : Str,
      removeTables text = joinNL ((splitOnNL text).filter keepLineSpec)) ∧
    removeTables ("A | B | C | D | E | F | G | H | I".data) = [] ∧
    removeTables ("Email: a@b.com | Phone: 555-1234".data) =
      "Email: a@b.com | Phone: 555-1234".data := by
  refine ⟨?_, by decide, by decide⟩
  intro text
  unfold removeTables
  congr 1
  exact List.filter_congr (fun l _ => keepLine_eq_spec l)

/-! ## Claim C2: clamping of the categorical scorer's output -/

/-- C2 (counterexample).  A generator response with `match_score = 150`
and `skills_match.points = 50` (cap 40): the overall score is clamped to
100, but the category points come through the scorer's validation
untouched at 50 > 40 — contradicting the claim that each category's
points are clamped to its cap. -/
def overCapMatch : MatchData :=
  { match_score := some 150
    skills_points := some 50
    experience_points := some 10
    keyword_points := some 10
    achievements_points := some 5
    education_points := some 5 }

/-- C2 (counterexample): see `overCapMatch`. -/
theorem category_points_not_clamped_counterexample :
    (validateMatchScore overCapMatch).match_score = some 100 ∧
    (validateMatchScore overCapMatch).skills_points = some 50 ∧
    (40 : ℚ) < 50 := by
  refine ⟨?_, rfl, by norm_num⟩
  norm_num [validateMatchScore, overCapMatch]

/-- C2 (amended).  `JobMatcher.match` clamps only the overall
`match_score` into [0,100] (silently — no error is reported); the
per-category points of `score_breakdown` are not clamped and pass through
whatever the generator returned. -/
theorem matchScore_clamp_amended (m : MatchData) :
    (validateMatchScore m).match_score =
      m.match_score.map (fun s => max 0 (min 100 s)) ∧
    (validateMatchScore m).skills_points = m.skills_points ∧
    (validateMatchScore m).experience_points = m.experience_points ∧
    (validateMatchScore m).keyword_points = m.keyword_points ∧
    (validateMatchScore m).achievements_points = m.achievements_points ∧
    (validateMatchScore m).education_points = m.education_points :=
  ⟨rfl, rfl, rfl, rfl, rfl, rfl⟩

/-! ## Claims C1, C3, C4: the rewrite endpoint's validation and response -/

/-- A baseline rewriter result for the concrete scenarios: non-empty
improved text, all optional score fields absent, no warnings/blockers. -/
def emptyResult : RewriteResult :=
  { improved_resume := ['R']
    fs_projected := none
    fs_improvement := none
    ats_original := none
    ats_projected := none
    ats_improvement := none
    projected_total_score := none
    projected_improvement := none
    skills_original := none
    skills_projected := none
    warnings := []
    blockers := []
    summary_of_changes := none
    changes_made := [] }

/-- A proposal whose generator-side estimate is 90 (improvement 40). -/
def estimateOnlyResult : RewriteResult :=
  { emptyResult with fs_projected := some 90, fs_improvement := some 40 }

/-- C1 (counterexample).  When the rescan step fails (`rescan = none`
models the swallowed exception of `resumes.py` line 507), the endpoint
falls back to the generator's estimate: with original score 50 and
`final_scores.match_score = {projected: 90, improvement: 40}`, the
surfaced `estimated_new_score` is 90 and `score_improvement` is 40 — the
generator's own projection, with no validation attached — contradicting
"always the re-scored actual score, including when the rescan fails". -/
theorem fallback_surfaces_estimate_counterexample :
    (buildResponse 50 estimateOnlyResult none).estimated_new_score = 90 ∧
    (buildResponse 50 estimateOnlyResult none).score_improvement = 40 ∧
    (buildResponse 50 estimateOnlyResult none).validation = none :=
  ⟨rfl, rfl, rfl⟩

/-- C1 (amended).  When the rescan succeeds (and the improved text is
non-empty), the surfaced score and improvement are the independently
re-scored actual values; when the rescan fails, the endpoint falls back
to the generator's projected score
(`final_scores.match_score.projected`, else `projected_total_score`,
else the original score) with no validation data. -/
theorem surfaced_score_amended (ms : ℚ) (r : RewriteResult) (mo : Option ℚ)
    (h : r.improved_resume ≠ []) :
    ((buildResponse ms r (some mo)).estimated_new_score = mo.getD ms ∧
     (buildResponse ms r (some mo)).score_improvement = mo.getD ms - ms) ∧
    ((buildResponse ms r none).estimated_new_score =
        r.fs_projected.getD (r.projected_total_score.getD ms) ∧
     (buildResponse ms r none).validation = none) := by
  cases hr : r.improved_resume with
  | nil => exact absurd hr h
  | cons c rest =>
    refine ⟨⟨?_, ?_⟩, rfl, rfl⟩ <;> simp [buildResponse, hr]

/-- C1 (witness): the amended statement at original score 50, rescan
returning 62. -/
theorem surfaced_score_amended_witness :
    ((buildResponse 50 estimateOnlyResult (some (some 62))).estimated_new_score =
        (some (62 : ℚ)).getD 50 ∧
     (buildResponse 50 estimateOnlyResult (some (some 62))).score_improvement =
        (some (62 : ℚ)).getD 50 - 50) ∧
    ((buildResponse 50 estimateOnlyResult none).estimated_new_score =
        estimateOnlyResult.fs_projected.getD
          (estimateOnlyResult.projected_total_score.getD 50) ∧
     (buildResponse 50 estimateOnlyResult none).validation = none) :=
  surfaced_score_amended 50 estimateOnlyResult (some 62) (by decide)

/-- C3: `postProcessResult` never touches the per-category projection. -/
theorem postProcess_skills_projected (r : RewriteResult) :
    (postProcessResult r).skills_projected = r.skills_projected := by
  unfold postProcessResult
  split <;> rfl

/-- C3: `postProcessResult` never touches the per-category original. -/
theorem postProcess_skills_original (r : RewriteResult) :
    (postProcessResult r).skills_original = r.skills_original := by
  unfold postProcessResult
  split <;> rfl

/-- A proposal projecting skills_match from 38 to 44 (over the cap 40),
with the corresponding projected total 56 = 50 + 6 and improvement 6. -/
def overCapProposal : RewriteResult :=
  { emptyResult with
    skills_original := some 38
    skills_projected := some 44
    fs_projected := some 56
    fs_improvement := some 6 }

/-- C3 (counterexample).  No caller-side clamp exists: a proposal
projecting skills_match from 38 to 44 (cap 40) passes through the
rewriter's post-processing and the endpoint unchanged, and with the
rescan unavailable the endpoint reports `score_improvement = 6`, not the
cap-clamped 2 the claim requires. -/
theorem projected_points_not_clamped_counterexample :
    (postProcessResult overCapProposal).skills_projected = some 44 ∧
    (buildResponse 50 overCapProposal none).score_improvement = 6 ∧
    (buildResponse 50 overCapProposal none).raw_response.skills_projected =
      some 44 ∧
    (6 : ℚ) ≠ 2 :=
  ⟨postProcess_skills_projected overCapProposal, rfl, rfl, by norm_num⟩

/-- C3 (amended).  The caller performs no defensive clamping of
per-category projected points: the rewriter's post-processing and the
endpoint both pass the proposal's values through unchanged, and when
validation is unavailable the surfaced improvement is the generator's own
unclamped figure. -/
theorem no_defensive_clamp_amended (ms : ℚ) (r : RewriteResult)
    (rescan : Option (Option ℚ)) :
    (postProcessResult r).skills_projected = r.skills_projected ∧
    (postProcessResult r).skills_original = r.skills_original ∧
    (buildResponse ms r rescan).raw_response = r ∧
    (buildResponse ms r none).score_improvement =
      r.fs_improvement.getD (r.projected_improvement.getD 0) :=
  ⟨postProcess_skills_projected r, postProcess_skills_original r, rfl, rfl⟩

/-- A proposal whose generator-side estimate equals the original score 50
(used to isolate the gap rounding). -/
def estimate50Result : RewriteResult :=
  { emptyResult with fs_projected := some 50 }

/-- C4 (counterexample).  The stored `accuracy_gap` is
`round(|estimated − actual|, 1)`, not the exact absolute difference: with
estimated 50 and actual 50.25 the ValidationResult carries
`accuracy_gap = 0.2` although `|50 − 50.25| = 0.25` (both values are
exactly representable in binary floating point, so CPython produces the
same 0.2). -/
theorem accuracy_gap_rounded_counterexample :
    ((buildResponse 50 estimate50Result (some (some (201 / 4)))).validation.map
        ValidationData.accuracy_gap) = some (1 / 5) ∧
    (1 / 5 : ℚ) ≠ |(50 : ℚ) - 201 / 4| := by
  have hgap : |(50 : ℚ) - 201 / 4| = 1 / 4 := by
    rw [abs_sub_comm, show (201 : ℚ) / 4 - 50 = 1 / 4 by norm_num]
    exact abs_of_nonneg (by norm_num)
  constructor
  · simp only [buildResponse, estimate50Result, emptyResult, Option.getD,
      Option.map, hgap]
    norm_num [pyRound1, pyRoundHalfEven]
  · rw [hgap]
    norm_num

/-- C4 (amended).  In every ValidationResult produced by a successful
rescan: `accuracy_gap` is `|estimated − actual|` rounded to one decimal
place (`reliable` is computed from the unrounded gap),
`actual_improvement = actual − original`, `reliable ⇔ gap ≤ 5`,
`ceiling_reached ⇔ actual_improvement ≤ 2`, and when the ceiling is
reached `ceiling_reasons` is blockers followed by warnings, or the
synthesized saturation reason (if the improvement is positive) or
already-optimized reason (otherwise) when both lists are empty. -/
theorem validation_fields_amended (ms : ℚ) (r : RewriteResult)
    (mo : Option ℚ) (h : r.improved_resume ≠ []) :
    ∃ v : ValidationData,
      (buildResponse ms r (some mo)).validation = some v ∧
      v.accuracy_gap = pyRound1 |r.fs_projected.getD ms - mo.getD ms| ∧
      v.actual_improvement = mo.getD ms - ms ∧
      (v.reliable = true ↔ |r.fs_projected.getD ms - mo.getD ms| ≤ 5) ∧
      (v.ceiling_reached = true ↔ mo.getD ms - ms ≤ 2) ∧
      v.ceiling_reasons =
        (if mo.getD ms - ms ≤ 2 then
          (if r.blockers ++ r.warnings = [] then
            [if 0 < mo.getD ms - ms then saturatedReason else optimizedReason]
           else r.blockers ++ r.warnings)
         else []) := by
  cases hr : r.improved_resume with
  | nil => exact absurd hr h
  | cons c rest =>
    have hval : (buildResponse ms r (some mo)).validation = some
        { estimated_score := r.fs_projected.getD ms
          actual_score := mo.getD ms
          estimated_improvement := r.fs_projected.getD ms - ms
          actual_improvement := mo.getD ms - ms
          accuracy_gap := pyRound1 |r.fs_projected.getD ms - mo.getD ms|
          reliable := decide (|r.fs_projected.getD ms - mo.getD ms| ≤ 5)
          ceiling_reached := decide (mo.getD ms - ms ≤ 2)
          ceiling_reasons :=
            if mo.getD ms - ms ≤ 2 then
              ceilingReasonsOf (mo.getD ms - ms) r.blockers r.warnings
            else []
          validation_message :=
            genValidationMessage |r.fs_projected.getD ms - mo.getD ms|
              (mo.getD ms - ms) } := by
      simp only [buildResponse, hr]
    refine ⟨_, hval, rfl, rfl, ?_, ?_, ?_⟩
    · simp
    · simp
    · simp only [ceilingReasonsOf]

/-- C4 (witness): the amended statement at original score 50, estimate 50
(absent fields default), rescan returning 53. -/
theorem validation_fields_amended_witness :
    ∃ v : ValidationData,
      (buildResponse 50 estimate50Result (some (some 53))).validation = some v ∧
      v.accuracy_gap =
        pyRound1 |estimate50Result.fs_projected.getD 50 - (some (53 : ℚ)).getD 50| ∧
      v.actual_improvement = (some (53 : ℚ)).getD 50 - 50 ∧
      (v.reliable = true ↔
        |estimate50Result.fs_projected.getD 50 - (some (53 : ℚ)).getD 50| ≤ 5) ∧
      (v.ceiling_reached = true ↔ (some (53 : ℚ)).getD 50 - 50 ≤ 2) ∧
      v.ceiling_reasons =
        (if (some (53 : ℚ)).getD 50 - 50 ≤ 2 then
          (if estimate50Result.blockers ++ estimate50Result.warnings = [] then
            [if 0 < (some (53 : ℚ)).getD 50 - 50 then saturatedReason
             else optimizedReason]
           else estimate50Result.blockers ++ estimate50Result.warnings)
         else []) :=
  validation_fields_amended 50 estimate50Result (some 53) (by decide)

/-! ## Claims C5 and C10: defensive parsing of generator responses -/

/-- C5 (counterexample).  The generation response `"5"` is valid JSON but
not the expected structure; `ResumeRewriterV2._parse_response` only
catches `json.JSONDecodeError`, and `"improved_resume" in 5` raises
`TypeError`, so the parse step raises instead of returning a tagged
parse-error object. -/
theorem rewriter_parse_raises_counterexample :
    rewriterParseResponse ("5".data) = Except.error typeErrorMsg := by
  rfl

/-- C5 (amended).  For every generation response on which JSON decoding
fails, both parse steps return a tagged parse-error object carrying the
(fence-stripped) text and the failure reason, without raising.  (A
response that decodes to a non-`dict` JSON value, however, makes the
rewriter's parser raise `TypeError` and the matcher's parser return the
value untagged; see the counterexample.) -/
theorem parse_error_tagged_amended (content : Str) (e : Str)
    (h : pyJsonLoads (pyStrip (fenceStrip content)) = Except.error e) :
    rewriterParseResponse content =
      Except.ok [(improvedKey, JVal.jstr (fenceStrip content)),
                 (parseErrKey, JVal.jstr e)] ∧
    matcherParseResponse content =
      JVal.jobj [(rawRespKey, JVal.jstr (fenceStrip content)),
                 (parseErrKey, JVal.jstr e)] := by
  constructor
  · simp only [rewriterParseResponse, h]
  · simp only [matcherParseResponse, h]

/-- C5 (witness): the amended statement at the undecodable response
`"hello"`. -/
theorem parse_error_tagged_amended_witness :
    rewriterParseResponse ("hello".data) =
      Except.ok [(improvedKey, JVal.jstr (fenceStrip "hello".data)),
                 (parseErrKey, JVal.jstr "Expecting value".data)] ∧
    matcherParseResponse ("hello".data) =
      JVal.jobj [(rawRespKey, JVal.jstr (fenceStrip "hello".data)),
                 (parseErrKey, JVal.jstr "Expecting value".data)] :=
  parse_error_tagged_amended ("hello".data) ("Expecting value".data) (by rfl)

/-- C10 (counterexample).  The claim says `_parse_response` never raises
and always produces a dict with a string `improved_resume`.  The response
`"null"` decodes to `None`; `"improved_resume" in None` raises
`TypeError` out of the method. -/
theorem rewriter_parse_null_counterexample :
    rewriterParseResponse ("null".data) = Except.error typeErrorMsg := by
  rfl

/-- C10 (amended).  Case analysis on the decoded response: on JSON decode
failure the (fence-stripped) raw content becomes `improved_resume` with a
`parse_error` key and no exception; when the response decodes to a dict,
the returned dict's `improved_resume` is always a string (the original
one, an error message replacing a nested dict, the stringified value, or
an inserted error message when the key is missing), so a dict is never
propagated in that field; but when the response decodes to a non-dict
JSON value the method raises `TypeError`. -/
theorem rewriter_parse_cases_amended (content : Str) :
    match pyJsonLoads (pyStrip (fenceStrip content)) with
    | Except.error e =>
      rewriterParseResponse content =
        Except.ok [(improvedKey, JVal.jstr (fenceStrip content)),
                   (parseErrKey, JVal.jstr e)]
    | Except.ok (JVal.jobj _) =>
      ∃ d, rewriterParseResponse content = Except.ok d ∧
        ∃ s, dictGet d improvedKey = some (JVal.jstr s)
    | Except.ok _ =>
      rewriterParseResponse content = Except.error typeErrorMsg := by
  cases hp : pyJsonLoads (pyStrip (fenceStrip content)) with
  | error e => simp only [rewriterParseResponse, hp]
  | ok v =>
    cases v with
    | jobj fs =>
      cases hg : dictGet fs improvedKey with
      | none =>
        refine ⟨dictSet (dictSet fs improvedKey (JVal.jstr missingResumeMsg))
          parseErrKey (JVal.jstr missingFieldErr),
          by simp only [rewriterParseResponse, hp, hg], missingResumeMsg, ?_⟩
        rw [dictGet_dictSet_ne _ parseErrKey improvedKey _ (by decide),
          dictGet_dictSet_self]
      | some w =>
        cases w with
        | jnull =>
          exact ⟨[(improvedKey, JVal.jstr (pyStrOf JVal.jnull)),
            (parseErrKey, JVal.jstr invalidTypeErr)],
            by simp only [rewriterParseResponse, hp, hg],
            pyStrOf JVal.jnull, by rfl⟩
        | jbool b =>
          exact ⟨[(improvedKey, JVal.jstr (pyStrOf (JVal.jbool b))),
            (parseErrKey, JVal.jstr invalidTypeErr)],
            by simp only [rewriterParseResponse, hp, hg],
            pyStrOf (JVal.jbool b), by rfl⟩
        | jnum q =>
          exact ⟨[(improvedKey, JVal.jstr (pyStrOf (JVal.jnum q))),
            (parseErrKey, JVal.jstr invalidTypeErr)],
            by simp only [rewriterParseResponse, hp, hg],
            pyStrOf (JVal.jnum q), by rfl⟩
        | jstr s =>
          exact ⟨fs, by simp only [rewriterParseResponse, hp, hg], s, hg⟩
        | jarr xs =>
          exact ⟨[(improvedKey, JVal.jstr (pyStrOf (JVal.jarr xs))),
            (parseErrKey, JVal.jstr invalidTypeErr)],
            by simp only [rewriterParseResponse, hp, hg],
            pyStrOf (JVal.jarr xs), by rfl⟩
        | jobj g =>
          exact ⟨[(improvedKey, JVal.jstr fmtErrStr),
            (parseErrKey, JVal.jstr dictParseErr)],
            by simp only [rewriterParseResponse, hp, hg],
            fmtErrStr, by rfl⟩
    | jnull => simp only [rewriterParseResponse, hp]
    | jbool b => simp only [rewriterParseResponse, hp]
    | jnum q => simp only [rewriterParseResponse, hp]
    | jstr s => simp only [rewriterParseResponse, hp]
    | jarr xs => simp only [rewriterParseResponse, hp]

/-! ## Claim C8: frequency ranking of extracted keywords

`_extract_keywords` intends frequency ranking (its comments read "Get
frequency", "Return keywords sorted by frequency (most common first)",
and `_analyze_keyword_matches` says "Prioritize keywords that appear
multiple times in job description").  But the `Counter` is built over
`list(set(phrases + keywords))` — a deduplicated list — so every key has
multiplicity 1 and `most_common` degenerates to the arbitrary set order.
-/

/-- A target text in which "python" occurs five times and "zebra" once. -/
def freqText : Str :=
  "python sql python aws python git python zebra python data".data

set_option maxRecDepth 100000 in
/-- C8 (code-bug evidence, evaluated at the failing input).  In-text
frequencies differ (5 vs 1), yet the multiplicity of both words in the
deduplicated `all_keywords` list — exactly what `Counter` counts — is 1,
both for the `most_common(100)` ranking inside `_extract_keywords` and
for the `most_common(50)` ranking that selects the "important"
target-side keywords.  Ranking by these counters is therefore not ranking
by frequency of occurrence in the target text. -/
theorem keyword_frequency_ranking_bug :
    pyCount ("python".data) (pyLower freqText) = 5 ∧
    pyCount ("zebra".data) (pyLower freqText) = 1 ∧
    (allKeywordsList freqText).count ("python".data) = 1 ∧
    (allKeywordsList freqText).count ("zebra".data) = 1 ∧
    ("python".data) ∈ extractKeywords freqText ∧
    ("zebra".data) ∈ extractKeywords freqText ∧
    ((extractKeywords freqText).filter
        (fun w => 0 < pyCount w (pyLower freqText))).count ("python".data)
      = 1 := by
  decide

/-! ## Claim C9: the ATS total formula and bounds -/

theorem checkFormatting_bounds (t : Str) :
    0 ≤ checkFormatting t ∧ checkFormatting t ≤ 100 := by
  unfold checkFormatting
  split_ifs <;> constructor <;> norm_num [max_def]

theorem sectionsFoundCount_le (t : Str) : sectionsFoundCount t ≤ 3 := by
  unfold sectionsFoundCount
  split_ifs <;> norm_num

theorem checkSections_bounds (t : Str) :
    0 ≤ checkSections t ∧ checkSections t ≤ 100 := by
  unfold checkSections
  constructor
  · positivity
  · have h3 : (sectionsFoundCount t : ℚ) ≤ 3 := by
      exact_mod_cast sectionsFoundCount_le t
    rw [div_mul_eq_mul_div, div_le_iff₀ (by norm_num : (0 : ℚ) < 3)]
    linarith

theorem checkContactInfo_bounds (P : ContactRegex) (t : Str) :
    0 ≤ checkContactInfo P t ∧ checkContactInfo P t ≤ 100 := by
  unfold checkContactInfo
  split_ifs <;> norm_num

theorem match_percentage_bounds (jk rk : List Str) (rt jd : Str) :
    0 ≤ (analyzeKeywordMatches jk rk rt jd).match_percentage ∧
    (analyzeKeywordMatches jk rk rt jd).match_percentage ≤ 100 := by
  have hproj : (analyzeKeywordMatches jk rk rt jd).match_percentage =
      pyRound1 (rawPct (matchedKeywordsOf (importantKeywordsOf jk jd) rt).length
        (importantKeywordsOf jk jd).length) := rfl
  rw [hproj]
  have hle : (matchedKeywordsOf (importantKeywordsOf jk jd) rt).length ≤
      (importantKeywordsOf jk jd).length := List.length_filter_le _ _
  constructor
  · apply pyRound1_nonneg
    unfold rawPct
    split_ifs with h
    · positivity
    · norm_num
  · apply pyRound1_le_100
    unfold rawPct
    split_ifs with h
    · rw [div_mul_eq_mul_div, div_le_iff₀ (by exact_mod_cast h)]
      have : ((matchedKeywordsOf (importantKeywordsOf jk jd) rt).length : ℚ) ≤
          ((importantKeywordsOf jk jd).length : ℚ) := by exact_mod_cast hle
      linarith
    · norm_num

set_option maxHeartbeats 1000000 in
/-- C9.  For every contact-regex implementation and every resume/target
pair: the returned ATS total is the weighted sum
`0.50·keyword_match_pct + 0.25·formatting + 0.15·sections + 0.10·contact`
rounded to one decimal place and lies in [0,100]; the keyword percentage
is matched-important / important × 100 (also to one decimal place, as the
claim's rounding caveat allows), and it is 0 when there are no important
keywords. -/
theorem ats_total_weighted_and_bounded (P : ContactRegex) (resume jd : Str) :
    (analyzeAtsScore P resume jd).ats_score =
      pyRound1 ((1 / 2) *
          (analyzeAtsScore P resume jd).keyword_analysis.match_percentage +
        (1 / 4) * (analyzeAtsScore P resume jd).formatting_score +
        (3 / 20) * (analyzeAtsScore P resume jd).section_score +
        (1 / 10) * (analyzeAtsScore P resume jd).contact_score) ∧
    0 ≤ (analyzeAtsScore P resume jd).ats_score ∧
    (analyzeAtsScore P resume jd).ats_score ≤ 100 ∧
    (analyzeAtsScore P resume jd).keyword_analysis.match_percentage =
      pyRound1
        (rawPct (analyzeAtsScore P resume jd).keyword_analysis.matched_count
          (analyzeAtsScore P resume jd).keyword_analysis.total_keywords) ∧
    ((analyzeAtsScore P resume jd).keyword_analysis.total_keywords = 0 →
      (analyzeAtsScore P resume jd).keyword_analysis.match_percentage = 0) := by
  have hka : (analyzeAtsScore P resume jd).keyword_analysis =
      analyzeKeywordMatches (extractKeywords jd) (extractKeywords resume)
        resume jd := rfl
  have hfmt : (analyzeAtsScore P resume jd).formatting_score =
      checkFormatting resume := rfl
  have hsec : (analyzeAtsScore P resume jd).section_score =
      checkSections resume := rfl
  have hcon : (analyzeAtsScore P resume jd).contact_score =
      checkContactInfo P resume := rfl
  have hscore : (analyzeAtsScore P resume jd).ats_score =
      pyRound1 ((analyzeAtsScore P resume jd).keyword_analysis.match_percentage
          * (0.50 : ℚ) +
        (analyzeAtsScore P resume jd).formatting_score * (0.25 : ℚ) +
        (analyzeAtsScore P resume jd).section_score * (0.15 : ℚ) +
        (analyzeAtsScore P resume jd).contact_score * (0.10 : ℚ)) := rfl
  obtain ⟨hp0, hp100⟩ := match_percentage_bounds (extractKeywords jd)
    (extractKeywords resume) resume jd
  rw [← hka] at hp0 hp100
  obtain ⟨hf0, hf100⟩ := checkFormatting_bounds resume
  rw [← hfmt] at hf0 hf100
  obtain ⟨hs0, hs100⟩ := checkSections_bounds resume
  rw [← hsec] at hs0 hs100
  obtain ⟨hc0, hc100⟩ := checkContactInfo_bounds P resume
  rw [← hcon] at hc0 hc100
  refine ⟨?_, ?_, ?_, rfl, ?_⟩
  · rw [hscore]
    congr 1
    ring_nf
  · rw [hscore]
    apply pyRound1_nonneg
    nlinarith
  · rw [hscore]
    apply pyRound1_le_100
    nlinarith
  · intro h0
    have h4 : (analyzeAtsScore P resume jd).keyword_analysis.match_percentage =
        pyRound1 (rawPct
          (analyzeAtsScore P resume jd).keyword_analysis.matched_count
          (analyzeAtsScore P resume jd).keyword_analysis.total_keywords) := rfl
    rw [h4, h0]
    unfold rawPct
    norm_num [pyRound1, pyRoundHalfEven]

end SkillFit
